import Mathlib

/-!
GpiBfmMsg and the VPI add-parameter glue

A shallow embedding of `cocotb/share/lib/gpi/GpiBfmMsg.cpp` (the message
container) and of the two add-parameter system tasks of
`cocotb/share/lib/vpi/vpi_bfm_api.cpp`.

Modelling conventions

* `GpiBfmMsg.h` is not among the sources.  The member names, the enumerators
  and the union members are taken from their uses in `GpiBfmMsg.cpp`; the
  counters `m_idx`, `m_param_l_idx`, `m_param_l_max` are natural numbers.
* The raw array `m_param_l` is a list of slots whose length is the allocated
  size; a slot is `none` until it has been written.
* A returned `const cocotb_bfm_msg_param_t *` is modelled by the parameter it
  points to (`none` is the null pointer).
* A `const char *` is a value of `CStr`: either a pointer to a text outside
  the message (a caller's buffer, a literal), modelled by that text, or the
  pointer `m_str_l[i].c_str()` into the message's own string list.  The
  declaration of `m_str_l` is in `GpiBfmMsg.h`; it is taken to be a
  `std::vector<std::string>`, which its uses (`push_back`, `back`, `at`,
  `size`) fit.  A `push_back` on a vector can relocate the elements, so a
  `c_str()` pointer is good only until the next `push_back` on `m_str_l`;
  reading through it afterwards is outside the model (`none`).
* The members of the union `pval` share one 64-bit storage.  Reading an
  integer member other than the one written reinterprets the two's-complement
  bit pattern; reading a pointer out of an integer or an integer out of a
  pointer is outside the model (`none`).
-/

/-- Enumeration of the parameter kinds (the tag `ptype`). -/
inductive GpiBfmParamType
  | GpiBfmParamType_Ui
  | GpiBfmParamType_Si
  | GpiBfmParamType_Str
  deriving DecidableEq, Repr

open GpiBfmParamType

/-- A value of type `const char *`: `text s` points to a text outside the
message and is modelled by that text; `c_str i n` is the result of
`m_str_l[i].c_str()` obtained while `m_str_l` held `n` elements. -/
inductive CStr
  | text (s : String)
  | c_str (i n : Nat)
  deriving DecidableEq, Repr

/-- The text behind a pointer handed in by a caller; a pointer into a string
list is not such a pointer. -/
def CStr.caller_text : CStr → Option String
  | CStr.text s => some s
  | CStr.c_str _ _ => none

/-- Union `pval`, tracked by the member that was written. -/
inductive PVal
  | ui64 (v : Nat)
  | i64 (v : Int)
  | str (s : CStr)
  deriving DecidableEq, Repr

namespace PVal

/-- Read of the member `ui64`. -/
def get_ui64 : PVal → Option Nat
  | ui64 v => some v
  | i64 v => some (v % 2 ^ 64).toNat
  | str _ => none

/-- Read of the member `i64`. -/
def get_i64 : PVal → Option Int
  | ui64 v =>
    some (if v % 2 ^ 64 < 2 ^ 63 then ((v % 2 ^ 64 : Nat) : Int)
      else ((v % 2 ^ 64 : Nat) : Int) - 2 ^ 64)
  | i64 v => some v
  | str _ => none

/-- Read of the member `str`. -/
def get_str : PVal → Option CStr
  | ui64 _ => none
  | i64 _ => none
  | str s => some s

end PVal

/-- Struct `cocotb_bfm_msg_param_t`: a tag and the union. -/
structure cocotb_bfm_msg_param_t where
  ptype : GpiBfmParamType
  pval : PVal
  deriving DecidableEq, Repr

/-- Class `GpiBfmMsg`: the data members. -/
structure GpiBfmMsg where
  m_id : Nat
  m_param_l : List (Option cocotb_bfm_msg_param_t)
  m_param_l_idx : Nat
  m_param_l_max : Nat
  m_str_l : List String
  m_idx : Nat
  deriving DecidableEq, Repr

namespace GpiBfmMsg

/-- Expression `new cocotb_bfm_msg_param_t[n]`: `n` unwritten slots. -/
def new_array (n : Nat) : List (Option cocotb_bfm_msg_param_t) :=
  List.replicate n none

/-- Call `memcpy(dst, src, n)` in units of one parameter slot. -/
def memcpy (dst src : List (Option cocotb_bfm_msg_param_t)) (n : Nat) :
    List (Option cocotb_bfm_msg_param_t) :=
  src.take n ++ dst.drop n

/-- The text read through a `const char *` in the state `m`. A pointer
`m_str_l[i].c_str()` obtained while `m_str_l` held `n` elements is good as long
as `m_str_l` still holds `n` elements; after a later `push_back` the elements
may have been relocated and the result is `none`. -/
def text_of (m : GpiBfmMsg) : CStr → Option String
  | CStr.text s => some s
  | CStr.c_str i n => if m.m_str_l.length = n then m.m_str_l[i]? else none

/-- The text a caller reads through the `str` member of a returned parameter
in the state `m`. -/
def param_text (m : GpiBfmMsg) (r : Option cocotb_bfm_msg_param_t) : Option String :=
  r.bind (fun p => p.pval.get_str.bind m.text_of)

/-- One iteration of the constructor loop, for index `i`. The result is `none`
when `paramv[i]` lies past the end of the supplied array or when a parameter
tagged as string does not hold a pointer to a caller's text. -/
def ctor_body (paramv : List cocotb_bfm_msg_param_t) (m : GpiBfmMsg) (i : Nat) :
    Option GpiBfmMsg :=
  match paramv[i]? with
  | none => none
  | some pv =>
    let m1 := { m with m_param_l := m.m_param_l.set i (some pv) }
    if pv.ptype = GpiBfmParamType_Str then
      match pv.pval.get_str.bind CStr.caller_text with
      | none => none
      | some s =>
        let strs := m1.m_str_l ++ [s]
        some { m1 with
          m_str_l := strs
          m_param_l := m1.m_param_l.set i
            (some { pv with pval := PVal.str (CStr.c_str (strs.length - 1) strs.length) }) }
    else
      some m1

/-- Loop `for (int i = ...; i < paramc; i++)` with `n` iterations left. -/
def ctor_loop (paramv : List cocotb_bfm_msg_param_t) :
    Nat → Nat → GpiBfmMsg → Option GpiBfmMsg
  | 0, _, m => some m
  | n + 1, i, m => (ctor_body paramv m i).bind (ctor_loop paramv n (i + 1))

/-- Constructor `GpiBfmMsg::GpiBfmMsg(id, paramc, paramv)`. A negative
`paramc` other than `-1` makes the array allocation fail (`none`). -/
def ctor (id : Nat) (paramc : Int) (paramv : List cocotb_bfm_msg_param_t) :
    Option GpiBfmMsg :=
  if paramc ≠ -1 then
    if paramc < 0 then none
    else
      ctor_loop paramv paramc.toNat 0
        { m_id := id, m_idx := 0,
          m_param_l := new_array paramc.toNat,
          m_param_l_idx := paramc.toNat,
          m_param_l_max := paramc.toNat,
          m_str_l := [] }
  else
    some
      { m_id := id, m_idx := 0,
        m_param_l_max := 16,
        m_param_l := new_array 16,
        m_param_l_idx := 0,
        m_str_l := [] }

/-- Method `GpiBfmMsg::add_param`. -/
def add_param (m : GpiBfmMsg) (p : cocotb_bfm_msg_param_t) : GpiBfmMsg :=
  let m1 :=
    if m.m_param_l_idx ≥ m.m_param_l_max then
      let tmp := m.m_param_l
      { m with
        m_param_l := memcpy (new_array (m.m_param_l_max + 16)) tmp m.m_param_l_idx
        m_param_l_max := m.m_param_l_max + 16 }
    else m
  { m1 with
    m_param_l := m1.m_param_l.set m1.m_param_l_idx (some p)
    m_param_l_idx := m1.m_param_l_idx + 1 }

/-- Method `GpiBfmMsg::add_param_ui`. -/
def add_param_ui (m : GpiBfmMsg) (p : Nat) : GpiBfmMsg :=
  add_param m { ptype := GpiBfmParamType_Ui, pval := PVal.ui64 p }

/-- Method `GpiBfmMsg::add_param_si`. -/
def add_param_si (m : GpiBfmMsg) (p : Int) : GpiBfmMsg :=
  add_param m { ptype := GpiBfmParamType_Si, pval := PVal.i64 p }

/-- Method `GpiBfmMsg::add_param_s`. -/
def add_param_s (m : GpiBfmMsg) (p : String) : GpiBfmMsg :=
  let m1 := { m with m_str_l := m.m_str_l ++ [p] }
  add_param m1
    { ptype := GpiBfmParamType_Si,
      pval := PVal.str (CStr.c_str (m1.m_str_l.length - 1) m1.m_str_l.length) }

/-- Method `GpiBfmMsg::get_param()`, the sequential form. -/
def get_param (m : GpiBfmMsg) : Option cocotb_bfm_msg_param_t × GpiBfmMsg :=
  if m.m_idx < m.m_param_l_idx then
    (m.m_param_l.getD m.m_idx none, { m with m_idx := m.m_idx + 1 })
  else
    (none, m)

/-- Method `GpiBfmMsg::get_param(uint32_t idx) const`, the random-access form. -/
def get_param_at (m : GpiBfmMsg) (idx : Nat) : Option cocotb_bfm_msg_param_t :=
  if idx < m.m_param_l_idx then m.m_param_l.getD idx none else none

/-- Method `GpiBfmMsg::get_param_ui`. The third component is what is printed
on stdout. -/
def get_param_ui (m : GpiBfmMsg) : Option Nat × GpiBfmMsg × List String :=
  if m.m_idx < m.m_param_l_idx then
    ((m.m_param_l.getD m.m_idx none).bind (fun p => p.pval.get_ui64),
      { m with m_idx := m.m_idx + 1 }, [])
  else
    (some 0, m, ["Error: Out-of-bound request\n"])

/-- Method `GpiBfmMsg::get_param_si`. -/
def get_param_si (m : GpiBfmMsg) : Option Int × GpiBfmMsg :=
  if m.m_idx < m.m_param_l_idx then
    ((m.m_param_l.getD m.m_idx none).bind (fun p => p.pval.get_i64),
      { m with m_idx := m.m_idx + 1 })
  else
    (some 0, m)

/-- Method `GpiBfmMsg::get_param_str`. -/
def get_param_str (m : GpiBfmMsg) : Option CStr × GpiBfmMsg :=
  if m.m_idx < m.m_param_l_idx then
    ((m.m_param_l.getD m.m_idx none).bind (fun p => p.pval.get_str),
      { m with m_idx := m.m_idx + 1 })
  else
    (some (CStr.text ""), m)

end GpiBfmMsg

/-- The four mutating calls of the class. -/
inductive AddCall
  | add_param (p : cocotb_bfm_msg_param_t)
  | add_param_ui (p : Nat)
  | add_param_si (p : Int)
  | add_param_s (p : String)
  deriving DecidableEq, Repr

namespace AddCall

/-- Effect of a mutating call on the message. -/
def exec : AddCall → GpiBfmMsg → GpiBfmMsg
  | add_param p, m => m.add_param p
  | add_param_ui p, m => m.add_param_ui p
  | add_param_si p, m => m.add_param_si p
  | add_param_s p, m => m.add_param_s p

/-- The parameter struct that a mutating call made in the state `m` writes
into the array; for `add_param_s` the payload is the `c_str()` pointer of the
element just pushed on `m_str_l`. -/
def stored : AddCall → GpiBfmMsg → cocotb_bfm_msg_param_t
  | add_param p, _ => p
  | add_param_ui p, _ => { ptype := GpiBfmParamType_Ui, pval := PVal.ui64 p }
  | add_param_si p, _ => { ptype := GpiBfmParamType_Si, pval := PVal.i64 p }
  | add_param_s _, m =>
    { ptype := GpiBfmParamType_Si,
      pval := PVal.str (CStr.c_str m.m_str_l.length (m.m_str_l.length + 1)) }

/-- A list of mutating calls made one after the other. -/
def execAll (cs : List AddCall) (m : GpiBfmMsg) : GpiBfmMsg :=
  cs.foldl (fun s c => c.exec s) m

end AddCall

/-- Any call of a public method of the class. -/
inductive Call
  | add (c : AddCall)
  | get_param
  | get_param_at (idx : Nat)
  | get_param_ui
  | get_param_si
  | get_param_str
  deriving DecidableEq, Repr

/-- What a call returns. -/
inductive Ret
  | void
  | param (r : Option cocotb_bfm_msg_param_t)
  | ui (r : Option Nat)
  | si (r : Option Int)
  | str (r : Option CStr)
  deriving DecidableEq, Repr

namespace Call

/-- Result and successor state of one call. -/
def exec : Call → GpiBfmMsg → Ret × GpiBfmMsg
  | add c, m => (Ret.void, c.exec m)
  | get_param, m => (Ret.param m.get_param.1, m.get_param.2)
  | get_param_at idx, m => (Ret.param (m.get_param_at idx), m)
  | get_param_ui, m => (Ret.ui m.get_param_ui.1, m.get_param_ui.2.1)
  | get_param_si, m => (Ret.si m.get_param_si.1, m.get_param_si.2)
  | get_param_str, m => (Ret.str m.get_param_str.1, m.get_param_str.2)

/-- Whether the call is the random-access read. -/
def isRandomAccess : Call → Bool
  | get_param_at _ => true
  | _ => false

/-- Whether the call is one of the three typed sequential reads. -/
def isTypedRead : Call → Bool
  | get_param_ui => true
  | get_param_si => true
  | get_param_str => true
  | _ => false

/-- A sequence of calls on one message: each call with its result, and the
final state. -/
def run : List Call → GpiBfmMsg → List (Call × Ret) × GpiBfmMsg
  | [], m => ([], m)
  | c :: cs, m => ((c, (c.exec m).1) :: (run cs (c.exec m).2).1, (run cs (c.exec m).2).2)

end Call

namespace GpiBfmMsg

/-- The results of `k` successive sequential `get_param()` calls, and the final
state. -/
def drain : Nat → GpiBfmMsg → List (Option cocotb_bfm_msg_param_t) × GpiBfmMsg
  | 0, m => ([], m)
  | k + 1, m => (m.get_param.1 :: (drain k m.get_param.2).1, (drain k m.get_param.2).2)

/-- Representation invariant: cursor, length and capacity are ordered, the
capacity is the allocated size, and every slot below the length is written. -/
def WF (m : GpiBfmMsg) : Prop :=
  m.m_idx ≤ m.m_param_l_idx ∧ m.m_param_l_idx ≤ m.m_param_l_max ∧
  m.m_param_l.length = m.m_param_l_max ∧
  (m.m_param_l.take m.m_param_l_idx).all Option.isSome = true

instance (m : GpiBfmMsg) : Decidable (WF m) := by unfold WF; infer_instance

/-- Abstraction relation: the message stores exactly the parameters `ps`. -/
def Stores (m : GpiBfmMsg) (ps : List cocotb_bfm_msg_param_t) : Prop :=
  m.m_param_l_idx ≤ m.m_param_l_max ∧ m.m_param_l.length = m.m_param_l_max ∧
  m.m_param_l.take m.m_param_l_idx = ps.map some ∧ ps.length = m.m_param_l_idx

/-- The message with the tag of slot `i` replaced by `t`, payload untouched. -/
def retag (m : GpiBfmMsg) (i : Nat) (t : GpiBfmParamType) : GpiBfmMsg :=
  { m with m_param_l :=
      m.m_param_l.set i ((m.m_param_l.getD i none).map (fun p => { p with ptype := t })) }

end GpiBfmMsg

/-! ## The VPI glue of the two add-parameter system tasks -/

/-- A call made by the glue into the BFM protocol API (`cocotb_bfm_api.h`, not
among the sources), with the values of its two argument expressions. -/
inductive BfmApiCall
  | cocotb_bfm_add_ui_param (bfm_id : Int) (pval : Int)
  | cocotb_bfm_add_si_param (bfm_id : Int) (pval : Int)
  deriving DecidableEq, Repr

/-- Function `cocotb_bfm_add_param_si_tf`. The two arguments are the 32-bit
integers that `vpi_get_value` delivers for the two system-task arguments; the
result is the list of protocol calls made and the return value. -/
def cocotb_bfm_add_param_si_tf (arg0 arg1 : Int) : List BfmApiCall × Int :=
  let bfm_id : Int := arg0
  let pval : Int := arg1
  ([BfmApiCall.cocotb_bfm_add_ui_param bfm_id pval], 0)

/-- Function `cocotb_bfm_add_param_ui_tf`, with the cast `(uint32_t)`. -/
def cocotb_bfm_add_param_ui_tf (arg0 arg1 : Int) : List BfmApiCall × Int :=
  let bfm_id : Int := arg0
  let pval : Int := arg1 % 2 ^ 32
  ([BfmApiCall.cocotb_bfm_add_ui_param bfm_id pval], 0)

/-- The protocol call the signed system task is specified to make: the signed
add-parameter operation with the value sign-extended to 64 bits. -/
def spec_add_param_si_call (b v : Int) : BfmApiCall :=
  BfmApiCall.cocotb_bfm_add_si_param b v

/-! ## Concrete messages used to instantiate the theorems -/

/-- The message that `GpiBfmMsg(7)` (unsized construction) builds. -/
def ex_fresh : GpiBfmMsg :=
  { m_id := 7, m_idx := 0, m_param_l_max := 16, m_param_l := GpiBfmMsg.new_array 16,
    m_param_l_idx := 0, m_str_l := [] }

/-- The message `ex_fresh` after `add_param_si(-1)`: one stored parameter, not
yet read. -/
def ex_one : GpiBfmMsg := ex_fresh.add_param_si (-1)

/-! ## Lemmas -/

namespace GpiBfmMsg

theorem add_param_fields (m : GpiBfmMsg) (p : cocotb_bfm_msg_param_t) :
    (add_param m p).m_idx = m.m_idx ∧ (add_param m p).m_id = m.m_id ∧
    (add_param m p).m_str_l = m.m_str_l ∧
    (add_param m p).m_param_l_idx = m.m_param_l_idx + 1 ∧
    (add_param m p).m_param_l_max =
      (if m.m_param_l_idx ≥ m.m_param_l_max then m.m_param_l_max + 16 else m.m_param_l_max) := by
  unfold add_param
  split <;> simp

theorem add_param_length (m : GpiBfmMsg) (p : cocotb_bfm_msg_param_t)
    (h1 : m.m_param_l_idx ≤ m.m_param_l_max) (h2 : m.m_param_l.length = m.m_param_l_max) :
    (add_param m p).m_param_l.length = (add_param m p).m_param_l_max := by
  unfold add_param
  split
  · simp [memcpy, new_array]; omega
  · simp [h2]

theorem add_param_slot (m : GpiBfmMsg) (p : cocotb_bfm_msg_param_t)
    (h1 : m.m_param_l_idx ≤ m.m_param_l_max) (h2 : m.m_param_l.length = m.m_param_l_max)
    (j : Nat) (hj : j ≤ m.m_param_l_idx) :
    (add_param m p).m_param_l[j]? =
      if j = m.m_param_l_idx then some (some p) else m.m_param_l[j]? := by
  unfold add_param
  split
  · simp only [memcpy, new_array, List.getElem?_set, List.getElem?_append, List.getElem?_take]
    have hlen : (List.take m.m_param_l_idx m.m_param_l).length = m.m_param_l_idx := by
      simp [List.length_take]; omega
    by_cases hji : j = m.m_param_l_idx
    · subst hji
      simp [List.length_take, List.length_drop]
      omega
    · have hlt : j < m.m_param_l_idx := by omega
      have hne : ¬ m.m_param_l_idx = j := fun h => hji h.symm
      simp [hne, hji, hlen, hlt]
  · simp only [List.getElem?_set]
    by_cases hji : j = m.m_param_l_idx
    · subst hji
      have : m.m_param_l_idx < m.m_param_l.length := by omega
      simp [this]
    · have hne : ¬ m.m_param_l_idx = j := fun h => hji h.symm
      simp [hne, hji]

end GpiBfmMsg
namespace GpiBfmMsg

theorem Stores.slot {m : GpiBfmMsg} {ps : List cocotb_bfm_msg_param_t} (h : Stores m ps)
    (i : Nat) (hi : i < m.m_param_l_idx) : m.m_param_l[i]? = (ps[i]?).map some := by
  obtain ⟨_, _, h3, _⟩ := h
  have := congrArg (fun l => l[i]?) h3
  simp only [List.getElem?_take, hi, if_true, List.getElem?_map] at this
  exact this

theorem Stores.add_param {m : GpiBfmMsg} {ps : List cocotb_bfm_msg_param_t} (h : Stores m ps)
    (p : cocotb_bfm_msg_param_t) : Stores (add_param m p) (ps ++ [p]) := by
  have hs := h.slot
  obtain ⟨h1, h2, h3, h4⟩ := h
  obtain ⟨_, _, _, f4, f5⟩ := add_param_fields m p
  refine ⟨?_, add_param_length m p h1 h2, ?_, ?_⟩
  · rw [f4, f5]; split <;> omega
  · apply List.ext_getElem?
    intro j
    rw [f4, List.getElem?_take]
    split
    · rename_i hj
      rw [add_param_slot m p h1 h2 j (by omega)]
      by_cases hji : j = m.m_param_l_idx
      · simp [hji, ← h4]
      · have hlt : j < m.m_param_l_idx := by omega
        rw [if_neg hji, hs j hlt]
        simp [List.getElem?_append, h4, hlt]
    · rename_i hj
      have : ps.length + 1 ≤ j := by omega
      simp [List.getElem?_eq_none, this]
  · simp [f4, h4]

theorem Stores.get_param_at {m : GpiBfmMsg} {ps : List cocotb_bfm_msg_param_t} (h : Stores m ps)
    (i : Nat) : get_param_at m i = ps[i]? := by
  unfold GpiBfmMsg.get_param_at
  split
  · rename_i hi
    rw [List.getD_eq_getElem?_getD, h.slot i hi]
    have : i < ps.length := by rw [h.2.2.2]; exact hi
    simp [List.getElem?_eq_getElem this]
  · rename_i hi
    have : ps.length ≤ i := by rw [h.2.2.2]; omega
    simp [List.getElem?_eq_none, this]

end GpiBfmMsg
namespace GpiBfmMsg

theorem Stores.get_param {m : GpiBfmMsg} {ps : List cocotb_bfm_msg_param_t} (h : Stores m ps) :
    (get_param m).1 = ps[m.m_idx]? ∧ Stores (get_param m).2 ps ∧
    (get_param m).2.m_idx = (if m.m_idx < ps.length then m.m_idx + 1 else m.m_idx) := by
  have hat := h.get_param_at m.m_idx
  unfold GpiBfmMsg.get_param_at at hat
  unfold GpiBfmMsg.get_param
  rw [h.2.2.2]
  split
  · rename_i hi
    rw [if_pos hi] at hat
    exact ⟨hat, h, rfl⟩
  · rename_i hi
    rw [if_neg hi] at hat
    exact ⟨hat, h, rfl⟩

theorem Stores.exec {m : GpiBfmMsg} {ps : List cocotb_bfm_msg_param_t} (h : Stores m ps)
    (c : AddCall) : Stores (c.exec m) (ps ++ [c.stored m]) ∧ (c.exec m).m_idx = m.m_idx := by
  cases c with
  | add_param p => exact ⟨h.add_param p, (add_param_fields m p).1⟩
  | add_param_ui p => exact ⟨h.add_param _, (add_param_fields m _).1⟩
  | add_param_si p => exact ⟨h.add_param _, (add_param_fields m _).1⟩
  | add_param_s p =>
    have h1 : Stores { m with m_str_l := m.m_str_l ++ [p] } ps := h
    have := h1.add_param
      { ptype := GpiBfmParamType_Si,
        pval := PVal.str (CStr.c_str ((m.m_str_l ++ [p]).length - 1) (m.m_str_l ++ [p]).length) }
    simp only [AddCall.exec, AddCall.stored, GpiBfmMsg.add_param_s]
    refine ⟨?_, (add_param_fields _ _).1⟩
    simpa using this

end GpiBfmMsg
namespace GpiBfmMsg

theorem ctor_unsized (id : Nat) (paramv : List cocotb_bfm_msg_param_t) :
    ctor id (-1) paramv = some
      { m_id := id, m_idx := 0, m_param_l_max := 16, m_param_l := new_array 16,
        m_param_l_idx := 0, m_str_l := [] } := by
  simp [ctor]

theorem Stores.unsized (id : Nat) (paramv : List cocotb_bfm_msg_param_t) :
    ∃ m, ctor id (-1) paramv = some m ∧ Stores m [] ∧ m.m_idx = 0 ∧ m.m_id = id ∧
      m.m_param_l_max = 16 := by
  refine ⟨_, ctor_unsized id paramv, ?_, rfl, rfl, rfl⟩
  simp [Stores, new_array]

theorem ctor_body_spec (paramv : List cocotb_bfm_msg_param_t) (m m1 : GpiBfmMsg) (i : Nat)
    (h : ctor_body paramv m i = some m1) :
    ∃ q, m1.m_param_l = m.m_param_l.set i (some q) ∧ m1.m_id = m.m_id ∧
      m1.m_idx = m.m_idx ∧ m1.m_param_l_idx = m.m_param_l_idx ∧
      m1.m_param_l_max = m.m_param_l_max := by
  unfold ctor_body at h
  cases hp : paramv[i]? with
  | none => simp [hp] at h
  | some pv =>
    simp only [hp] at h
    by_cases ht : pv.ptype = GpiBfmParamType_Str
    · simp only [ht, if_true] at h
      cases hs : pv.pval.get_str.bind CStr.caller_text with
      | none => simp [hs] at h
      | some s =>
        simp only [hs, Option.some.injEq] at h
        rw [← h]
        exact ⟨_, List.set_set _ _ _ _, rfl, rfl, rfl, rfl⟩
    · simp only [ht, if_false, Option.some.injEq] at h
      rw [← h]
      exact ⟨pv, rfl, rfl, rfl, rfl, rfl⟩

/-- Every slot below `k` that lies inside the array is written. -/
theorem written_set (l : List (Option cocotb_bfm_msg_param_t)) (i : Nat)
    (q : cocotb_bfm_msg_param_t)
    (h : ∀ j, j < i → j < l.length → ∃ p, l[j]? = some (some p)) :
    ∀ j, j < i + 1 → j < (l.set i (some q)).length → ∃ p, (l.set i (some q))[j]? = some (some p) := by
  intro j hj hlen
  rw [List.length_set] at hlen
  rw [List.getElem?_set]
  by_cases hji : i = j
  · subst hji
    exact ⟨q, by simp [hlen]⟩
  · rw [if_neg hji]
    exact h j (by omega) hlen

theorem ctor_loop_spec (paramv : List cocotb_bfm_msg_param_t) (n : Nat) :
    ∀ (i : Nat) (m m1 : GpiBfmMsg), ctor_loop paramv n i m = some m1 →
      (∀ j, j < i → j < m.m_param_l.length → ∃ p, m.m_param_l[j]? = some (some p)) →
      m1.m_id = m.m_id ∧ m1.m_idx = m.m_idx ∧ m1.m_param_l_idx = m.m_param_l_idx ∧
      m1.m_param_l_max = m.m_param_l_max ∧ m1.m_param_l.length = m.m_param_l.length ∧
      (∀ j, j < i + n → j < m1.m_param_l.length → ∃ p, m1.m_param_l[j]? = some (some p)) := by
  induction n with
  | zero =>
    intro i m m1 h hw
    simp only [ctor_loop, Option.some.injEq] at h
    subst h
    exact ⟨rfl, rfl, rfl, rfl, rfl, hw⟩
  | succ n ih =>
    intro i m m1 h hw
    simp only [ctor_loop] at h
    cases hb : ctor_body paramv m i with
    | none => simp [hb] at h
    | some m2 =>
      simp only [hb, Option.some_bind] at h
      obtain ⟨q, b1, b2, b3, b4, b5⟩ := ctor_body_spec paramv m m2 i hb
      have hw2 : ∀ j, j < i + 1 → j < m2.m_param_l.length →
          ∃ p, m2.m_param_l[j]? = some (some p) := by
        rw [b1]
        exact written_set m.m_param_l i q hw
      obtain ⟨a1, a2, a3, a4, a5, a6⟩ := ih (i + 1) m2 m1 h hw2
      refine ⟨a1.trans b2, a2.trans b3, a3.trans b4, a4.trans b5, ?_, ?_⟩
      · rw [a5, b1, List.length_set]
      · intro j hj hlen
        exact a6 j (by omega) hlen

theorem WF_of_written (m : GpiBfmMsg) (h1 : m.m_idx ≤ m.m_param_l_idx)
    (h2 : m.m_param_l_idx ≤ m.m_param_l_max) (h3 : m.m_param_l.length = m.m_param_l_max)
    (h4 : ∀ j, j < m.m_param_l_idx → j < m.m_param_l.length →
      ∃ p, m.m_param_l[j]? = some (some p)) : WF m := by
  refine ⟨h1, h2, h3, ?_⟩
  rw [List.all_eq_true]
  intro x hx
  obtain ⟨j, hj, hx⟩ := List.getElem_of_mem hx
  have hj1 : j < m.m_param_l_idx := by
    have := List.length_take_le m.m_param_l_idx m.m_param_l
    omega
  have hj2 : j < m.m_param_l.length := by omega
  obtain ⟨p, hp⟩ := h4 j hj1 hj2
  rw [List.getElem_take] at hx
  rw [List.getElem?_eq_getElem hj2] at hp
  rw [← hx, Option.some.inj hp]
  rfl

theorem foldl_add_param_stores (m0 : GpiBfmMsg) (h0 : Stores m0 []) (hc : m0.m_param_l_max = 16)
    (ps : List cocotb_bfm_msg_param_t) :
    Stores (ps.foldl add_param m0) ps ∧
    (ps.foldl add_param m0).m_param_l_max = 16 * ((max ps.length 1 + 15) / 16) ∧
    (ps.foldl add_param m0).m_idx = m0.m_idx ∧ (ps.foldl add_param m0).m_id = m0.m_id := by
  induction ps using List.reverseRecOn with
  | nil => exact ⟨h0, by simpa using hc, rfl, rfl⟩
  | append_singleton ps p ih =>
    obtain ⟨i1, i2, i3, i4⟩ := ih
    obtain ⟨f1, f2, _, f4, f5⟩ := add_param_fields (ps.foldl add_param m0) p
    rw [List.foldl_append, List.foldl_cons, List.foldl_nil]
    refine ⟨i1.add_param p, ?_, f1.trans i3, f2.trans i4⟩
    rw [f5, i2]
    have hle := i1.1
    have hlen := i1.2.2.2
    rw [i2, ← hlen] at hle
    rw [← hlen, List.length_append, List.length_singleton]
    split <;> omega

theorem WF_of_Stores {m : GpiBfmMsg} {ps : List cocotb_bfm_msg_param_t} (h : Stores m ps)
    (hi : m.m_idx ≤ m.m_param_l_idx) : WF m := by
  refine ⟨hi, h.1, h.2.1, ?_⟩
  rw [h.2.2.1]
  simp

theorem Stores_of_WF {m : GpiBfmMsg} (h : WF m) : ∃ ps, Stores m ps := by
  obtain ⟨_, h2, h3, h4⟩ := h
  refine ⟨(m.m_param_l.take m.m_param_l_idx).filterMap id, h2, h3, ?_, ?_⟩
  · generalize m.m_param_l.take m.m_param_l_idx = l at h4
    induction l with
    | nil => rfl
    | cons a l ih =>
      simp only [List.all_cons, Bool.and_eq_true] at h4
      cases a with
      | none => simp at h4
      | some a => simp [List.filterMap_cons, ← ih h4.2]
  · have hl : (m.m_param_l.take m.m_param_l_idx).length = m.m_param_l_idx := by
      simp [List.length_take]; omega
    generalize m.m_param_l.take m.m_param_l_idx = l at h4 hl
    rw [← hl]
    clear hl
    induction l with
    | nil => rfl
    | cons a l ih =>
      simp only [List.all_cons, Bool.and_eq_true] at h4
      cases a with
      | none => simp at h4
      | some a => simp [List.filterMap_cons, ih h4.2]

end GpiBfmMsg
namespace GpiBfmMsg

theorem ctor_stores (id : Nat) (paramc : Int) (paramv : List cocotb_bfm_msg_param_t)
    (m0 : GpiBfmMsg) (h : ctor id paramc paramv = some m0) :
    ∃ ps, Stores m0 ps ∧ m0.m_idx = 0 := by
  by_cases hc : paramc = -1
  · subst hc
    obtain ⟨m, hm, hs, hi, _⟩ := Stores.unsized id paramv
    rw [h] at hm
    cases hm
    exact ⟨[], hs, hi⟩
  · simp only [ctor, ne_eq, hc, not_false_eq_true, if_true] at h
    by_cases hneg : paramc < 0
    · simp [hneg] at h
    · simp only [hneg, if_false] at h
      obtain ⟨_, a2, a3, a4, a5, a6⟩ := ctor_loop_spec paramv paramc.toNat 0 _ m0 h
        (fun j hj _ => absurd hj (Nat.not_lt_zero j))
      dsimp only at a2 a3 a4 a5 a6
      have hlen : m0.m_param_l.length = paramc.toNat := by rw [a5]; simp [new_array]
      have hwf : WF m0 := by
        refine WF_of_written m0 (by rw [a2]; exact Nat.zero_le _) (by rw [a3, a4])
          (by rw [hlen, a4]) ?_
        intro j hj hl
        rw [a3] at hj
        exact a6 j (by omega) hl
      obtain ⟨ps, hps⟩ := Stores_of_WF hwf
      exact ⟨ps, hps, a2⟩

end GpiBfmMsg
namespace GpiBfmMsg

theorem get_param_ui_state (m : GpiBfmMsg) : (get_param_ui m).2.1 = (get_param m).2 := by
  unfold get_param_ui get_param; split <;> rfl

theorem get_param_si_state (m : GpiBfmMsg) : (get_param_si m).2 = (get_param m).2 := by
  unfold get_param_si get_param; split <;> rfl

theorem get_param_str_state (m : GpiBfmMsg) : (get_param_str m).2 = (get_param m).2 := by
  unfold get_param_str get_param; split <;> rfl

theorem get_param_state_fields (m : GpiBfmMsg) :
    (get_param m).2.m_param_l = m.m_param_l ∧ (get_param m).2.m_param_l_idx = m.m_param_l_idx ∧
    (get_param m).2.m_param_l_max = m.m_param_l_max ∧ (get_param m).2.m_str_l = m.m_str_l ∧
    (get_param m).2.m_id = m.m_id ∧ m.m_idx ≤ (get_param m).2.m_idx ∧
    (m.m_idx ≤ m.m_param_l_idx → (get_param m).2.m_idx ≤ m.m_param_l_idx) := by
  unfold get_param
  split
  · rename_i hlt
    exact ⟨rfl, rfl, rfl, rfl, rfl, Nat.le_succ _, fun _ => hlt⟩
  · exact ⟨rfl, rfl, rfl, rfl, rfl, Nat.le_refl _, fun h => h⟩

theorem AddCall_exec_fields (a : AddCall) (m : GpiBfmMsg) :
    (a.exec m).m_idx = m.m_idx ∧ (a.exec m).m_id = m.m_id ∧
    (a.exec m).m_param_l_idx = m.m_param_l_idx + 1 ∧
    (a.exec m).m_param_l_max =
      (if m.m_param_l_idx ≥ m.m_param_l_max then m.m_param_l_max + 16 else m.m_param_l_max) := by
  cases a with
  | add_param p =>
    obtain ⟨f1, f2, _, f4, f5⟩ := add_param_fields m p
    exact ⟨f1, f2, f4, f5⟩
  | add_param_ui p =>
    obtain ⟨f1, f2, _, f4, f5⟩ := add_param_fields m ⟨GpiBfmParamType_Ui, PVal.ui64 p⟩
    exact ⟨f1, f2, f4, f5⟩
  | add_param_si p =>
    obtain ⟨f1, f2, _, f4, f5⟩ := add_param_fields m ⟨GpiBfmParamType_Si, PVal.i64 p⟩
    exact ⟨f1, f2, f4, f5⟩
  | add_param_s p =>
    simp only [AddCall.exec, add_param_s]
    obtain ⟨f1, f2, _, f4, f5⟩ := add_param_fields { m with m_str_l := m.m_str_l ++ [p] }
      ⟨GpiBfmParamType_Si,
        PVal.str (CStr.c_str ((m.m_str_l ++ [p]).length - 1) (m.m_str_l ++ [p]).length)⟩
    exact ⟨f1, f2, f4, f5⟩

/-- Invariant used for reachable states: some list of parameters is stored and
the cursor does not exceed the length. -/
theorem exec_preserves (c : Call) (m : GpiBfmMsg) (ps : List cocotb_bfm_msg_param_t)
    (h : Stores m ps) (hi : m.m_idx ≤ m.m_param_l_idx) :
    ∃ ps1, Stores (c.exec m).2 ps1 ∧ (c.exec m).2.m_idx ≤ (c.exec m).2.m_param_l_idx := by
  have hg := get_param_state_fields m
  have hs := h.get_param.2.1
  cases c with
  | add a =>
    obtain ⟨e1, e2⟩ := h.exec a
    refine ⟨_, e1, ?_⟩
    simp only [Call.exec]
    rw [e2, (AddCall_exec_fields a m).2.2.1]
    omega
  | get_param =>
    refine ⟨ps, hs, ?_⟩
    simp only [Call.exec]
    rw [hg.2.1]
    exact hg.2.2.2.2.2.2 hi
  | get_param_at idx => exact ⟨ps, h, hi⟩
  | get_param_ui =>
    simp only [Call.exec, get_param_ui_state]
    exact ⟨ps, hs, by rw [hg.2.1]; exact hg.2.2.2.2.2.2 hi⟩
  | get_param_si =>
    simp only [Call.exec, get_param_si_state]
    exact ⟨ps, hs, by rw [hg.2.1]; exact hg.2.2.2.2.2.2 hi⟩
  | get_param_str =>
    simp only [Call.exec, get_param_str_state]
    exact ⟨ps, hs, by rw [hg.2.1]; exact hg.2.2.2.2.2.2 hi⟩

theorem run_preserves (cs : List Call) :
    ∀ (m : GpiBfmMsg) (ps : List cocotb_bfm_msg_param_t), Stores m ps →
      m.m_idx ≤ m.m_param_l_idx →
      ∃ ps1, Stores (Call.run cs m).2 ps1 ∧
        (Call.run cs m).2.m_idx ≤ (Call.run cs m).2.m_param_l_idx := by
  induction cs with
  | nil => intro m ps h hi; exact ⟨ps, h, hi⟩
  | cons c cs ih =>
    intro m ps h hi
    obtain ⟨ps1, h1, hi1⟩ := exec_preserves c m ps h hi
    exact ih _ ps1 h1 hi1

theorem exec_cursor_mono (c : Call) (m : GpiBfmMsg) : m.m_idx ≤ (c.exec m).2.m_idx := by
  have hg := get_param_state_fields m
  cases c with
  | add a => simp only [Call.exec]; rw [(AddCall_exec_fields a m).1]
  | get_param => exact hg.2.2.2.2.2.1
  | get_param_at idx => exact Nat.le_refl _
  | get_param_ui => simp only [Call.exec, get_param_ui_state]; exact hg.2.2.2.2.2.1
  | get_param_si => simp only [Call.exec, get_param_si_state]; exact hg.2.2.2.2.2.1
  | get_param_str => simp only [Call.exec, get_param_str_state]; exact hg.2.2.2.2.2.1

theorem exec_capacity (c : Call) (m : GpiBfmMsg) (hle : m.m_param_l_idx ≤ m.m_param_l_max) :
    (c.exec m).2.m_param_l_max = m.m_param_l_max ∨
    ((c.exec m).2.m_param_l_max = m.m_param_l_max + 16 ∧ (∃ a, c = Call.add a) ∧
      m.m_param_l_idx = m.m_param_l_max) := by
  have hg := get_param_state_fields m
  cases c with
  | add a =>
    simp only [Call.exec]
    rw [(AddCall_exec_fields a m).2.2.2]
    split
    · right; exact ⟨rfl, ⟨a, rfl⟩, by omega⟩
    · left; rfl
  | get_param => left; exact hg.2.2.1
  | get_param_at idx => left; rfl
  | get_param_ui => left; simp only [Call.exec, get_param_ui_state]; exact hg.2.2.1
  | get_param_si => left; simp only [Call.exec, get_param_si_state]; exact hg.2.2.1
  | get_param_str => left; simp only [Call.exec, get_param_str_state]; exact hg.2.2.1

end GpiBfmMsg
/-! ## The claims -/

/-- C1, evaluation at `add_param_s("x")`, `add_param_s("y")` on a message from
unsized construction: three sequential `get_param()` calls return the two
parameters in the order of the calls and then null; right after the first call
the text of the first parameter reads `"x"`; after the second call, whose
`push_back` relocates `m_str_l`, the pointer held by the first parameter is no
longer good, while the second reads `"y"`. -/
theorem C1_order_preservation_fails :
    (GpiBfmMsg.ctor 1 (-1) []).map (fun m0 =>
        (GpiBfmMsg.drain 3
          (AddCall.execAll [AddCall.add_param_s "x", AddCall.add_param_s "y"] m0)).1) =
      some [some ⟨GpiBfmParamType_Si, PVal.str (CStr.c_str 0 1)⟩,
        some ⟨GpiBfmParamType_Si, PVal.str (CStr.c_str 1 2)⟩, none] ∧
    (GpiBfmMsg.ctor 1 (-1) []).map (fun m0 =>
        (AddCall.execAll [AddCall.add_param_s "x"] m0).text_of (CStr.c_str 0 1)) =
      some (some "x") ∧
    (GpiBfmMsg.ctor 1 (-1) []).map (fun m0 =>
        ((AddCall.execAll [AddCall.add_param_s "x", AddCall.add_param_s "y"] m0).text_of
            (CStr.c_str 0 1),
          (AddCall.execAll [AddCall.add_param_s "x", AddCall.add_param_s "y"] m0).text_of
            (CStr.c_str 1 2))) =
      some (none, some "y") := by
  refine ⟨by rfl, by rfl, by rfl⟩

/-- C2, growth transparency: after appending any `N` parameters with
`add_param` to a message from unsized construction the length is `N`, the
random-access `get_param(i)` returns the `i`-th appended parameter for `i < N`
and null for `i >= N`, the capacity is the least positive multiple of 16 that
holds `N` entries and equals the allocated size, and one more `add_param`
leaves every earlier entry as it was. -/
theorem C2_growth_transparency (id : Nat) (paramv ps : List cocotb_bfm_msg_param_t) :
    ∃ m0, GpiBfmMsg.ctor id (-1) paramv = some m0 ∧
      (ps.foldl GpiBfmMsg.add_param m0).m_param_l_idx = ps.length ∧
      (∀ i, i < ps.length →
        ∃ p, ps[i]? = some p ∧ GpiBfmMsg.get_param_at (ps.foldl GpiBfmMsg.add_param m0) i = some p) ∧
      (∀ i, ps.length ≤ i → GpiBfmMsg.get_param_at (ps.foldl GpiBfmMsg.add_param m0) i = none) ∧
      (ps.foldl GpiBfmMsg.add_param m0).m_param_l_max = 16 * ((max ps.length 1 + 15) / 16) ∧
      (ps.foldl GpiBfmMsg.add_param m0).m_param_l.length =
        (ps.foldl GpiBfmMsg.add_param m0).m_param_l_max ∧
      (∀ p i, i < ps.length →
        GpiBfmMsg.get_param_at ((ps.foldl GpiBfmMsg.add_param m0).add_param p) i =
          GpiBfmMsg.get_param_at (ps.foldl GpiBfmMsg.add_param m0) i) := by
  obtain ⟨m0, hm, hs, _, _, hc⟩ := GpiBfmMsg.Stores.unsized id paramv
  obtain ⟨f1, f2, _, _⟩ := GpiBfmMsg.foldl_add_param_stores m0 hs hc ps
  refine ⟨m0, hm, f1.2.2.2.symm, ?_, ?_, f2, f1.2.1, ?_⟩
  · intro i hi
    exact ⟨ps[i], List.getElem?_eq_getElem hi, by
      rw [f1.get_param_at i, List.getElem?_eq_getElem hi]⟩
  · intro i hi
    rw [f1.get_param_at i, List.getElem?_eq_none hi]
  · intro p i hi
    rw [(f1.add_param p).get_param_at i, f1.get_param_at i, List.getElem?_append_left hi]

/-- C3, evaluation at the claim's input: sized construction from
`[ui=10, si=-3, str="x"]` and unsized construction followed by
`add_param_ui(10)`, `add_param_si(-3)`, `add_param_s("x")` agree on the first,
second and fourth sequential `get_param()` result, and differ on the third:
the tag is the string kind on one side and the signed kind on the other, while
the text read through the payload is `"x"` on both sides. -/
theorem C3_construction_equivalence_fails :
    (GpiBfmMsg.ctor 1 3
        [⟨GpiBfmParamType_Ui, PVal.ui64 10⟩, ⟨GpiBfmParamType_Si, PVal.i64 (-3)⟩,
          ⟨GpiBfmParamType_Str, PVal.str (CStr.text "x")⟩]).map
        (fun m => (GpiBfmMsg.drain 4 m).1) =
      some [some ⟨GpiBfmParamType_Ui, PVal.ui64 10⟩, some ⟨GpiBfmParamType_Si, PVal.i64 (-3)⟩,
        some ⟨GpiBfmParamType_Str, PVal.str (CStr.c_str 0 1)⟩, none] ∧
    (GpiBfmMsg.ctor 1 (-1) []).map (fun m =>
        (GpiBfmMsg.drain 4 (((m.add_param_ui 10).add_param_si (-3)).add_param_s "x")).1) =
      some [some ⟨GpiBfmParamType_Ui, PVal.ui64 10⟩, some ⟨GpiBfmParamType_Si, PVal.i64 (-3)⟩,
        some ⟨GpiBfmParamType_Si, PVal.str (CStr.c_str 0 1)⟩, none] ∧
    (GpiBfmMsg.ctor 1 3
        [⟨GpiBfmParamType_Ui, PVal.ui64 10⟩, ⟨GpiBfmParamType_Si, PVal.i64 (-3)⟩,
          ⟨GpiBfmParamType_Str, PVal.str (CStr.text "x")⟩]).map
        (fun m => (GpiBfmMsg.drain 4 m).1) ≠
      (GpiBfmMsg.ctor 1 (-1) []).map (fun m =>
        (GpiBfmMsg.drain 4 (((m.add_param_ui 10).add_param_si (-3)).add_param_s "x")).1) ∧
    (GpiBfmMsg.ctor 1 3
        [⟨GpiBfmParamType_Ui, PVal.ui64 10⟩, ⟨GpiBfmParamType_Si, PVal.i64 (-3)⟩,
          ⟨GpiBfmParamType_Str, PVal.str (CStr.text "x")⟩]).map
        (fun m => (GpiBfmMsg.drain 4 m).1.map m.param_text) =
      some [none, none, some "x", none] ∧
    (GpiBfmMsg.ctor 1 (-1) []).map (fun m =>
        (GpiBfmMsg.drain 4 (((m.add_param_ui 10).add_param_si (-3)).add_param_s "x")).1.map
          (((m.add_param_ui 10).add_param_si (-3)).add_param_s "x").param_text) =
      some [none, none, some "x", none] := by
  refine ⟨by rfl, by rfl, by decide, by rfl, by rfl⟩

theorem run_filter_random_access (cs : List Call) :
    ∀ m : GpiBfmMsg,
      (Call.run cs m).1.filter (fun cr => !cr.1.isRandomAccess) =
        (Call.run (cs.filter (fun c => !c.isRandomAccess)) m).1 ∧
      (Call.run cs m).2 = (Call.run (cs.filter (fun c => !c.isRandomAccess)) m).2 := by
  induction cs with
  | nil => intro m; exact ⟨rfl, rfl⟩
  | cons c cs ih =>
    intro m
    obtain ⟨i1, i2⟩ := ih (c.exec m).2
    cases hc : c.isRandomAccess with
    | false =>
      simp only [Call.run, List.filter_cons, hc, Bool.not_false, if_true]
      exact ⟨by rw [i1], i2⟩
    | true =>
      have hst : (c.exec m).2 = m := by
        cases c <;> first | rfl | cases hc
      rw [hst] at i1 i2
      simp only [Call.run, List.filter_cons, hc, Bool.not_true, hst]
      exact ⟨i1, i2⟩

/-- C4, random-access independence: `get_param(index)` leaves the message as it
was (cursor, length, stored parameters), and in every sequence of calls the
results of the other calls and the final state are those of the sequence with
the random-access calls removed. -/
theorem C4_random_access_independence (m : GpiBfmMsg) (idx : Nat) (cs : List Call) :
    (Call.exec (Call.get_param_at idx) m).2 = m ∧
    (Call.run cs m).1.filter (fun cr => !cr.1.isRandomAccess) =
      (Call.run (cs.filter (fun c => !c.isRandomAccess)) m).1 ∧
    (Call.run cs m).2 = (Call.run (cs.filter (fun c => !c.isRandomAccess)) m).2 :=
  ⟨rfl, run_filter_random_access cs m⟩

/-- C5, evaluation at `add_param_s("y")` on the message obtained from a fresh
one by `add_param_s("x")`: the call appends one parameter tagged
`GpiBfmParamType_Si` whose text reads `"y"`, and the struct of the earlier
parameter is the same before and after; but the text of the earlier parameter,
`"x"` before the call, can no longer be read through its pointer after the
call, because the `push_back` relocates `m_str_l`. -/
theorem C5_string_convenience_fails :
    ((ex_fresh.add_param_s "x").add_param_s "y").m_param_l_idx =
      (ex_fresh.add_param_s "x").m_param_l_idx + 1 ∧
    ((ex_fresh.add_param_s "x").add_param_s "y").get_param_at 1 =
      some ⟨GpiBfmParamType_Si, PVal.str (CStr.c_str 1 2)⟩ ∧
    ((ex_fresh.add_param_s "x").add_param_s "y").param_text
      (((ex_fresh.add_param_s "x").add_param_s "y").get_param_at 1) = some "y" ∧
    (ex_fresh.add_param_s "x").get_param_at 0 =
      some ⟨GpiBfmParamType_Si, PVal.str (CStr.c_str 0 1)⟩ ∧
    ((ex_fresh.add_param_s "x").add_param_s "y").get_param_at 0 =
      some ⟨GpiBfmParamType_Si, PVal.str (CStr.c_str 0 1)⟩ ∧
    (ex_fresh.add_param_s "x").param_text ((ex_fresh.add_param_s "x").get_param_at 0) =
      some "x" ∧
    ((ex_fresh.add_param_s "x").add_param_s "y").param_text
      (((ex_fresh.add_param_s "x").add_param_s "y").get_param_at 0) = none := by
  refine ⟨by rfl, by rfl, by rfl, by rfl, by rfl, by rfl, by rfl⟩

/-- C6, evaluation at `GpiBfmMsg(1, 2, [str="a", str="b"])`: identifier,
cursor, length and capacity are as supplied and both slots keep the string tag,
each holding the `c_str()` pointer of its own copy in `m_str_l`; the second
text reads `"b"`, but the pointer of the first slot was taken before the second
`push_back`, which relocates `m_str_l`, so the first text can no longer be read
through it. -/
theorem C6_construction_postcondition_fails :
    (GpiBfmMsg.ctor 1 2
        [⟨GpiBfmParamType_Str, PVal.str (CStr.text "a")⟩,
          ⟨GpiBfmParamType_Str, PVal.str (CStr.text "b")⟩]).map
        (fun m => (m.m_id, m.m_idx, m.m_param_l_idx, m.m_param_l_max, m.m_param_l, m.m_str_l)) =
      some (1, 0, 2, 2,
        [some ⟨GpiBfmParamType_Str, PVal.str (CStr.c_str 0 1)⟩,
          some ⟨GpiBfmParamType_Str, PVal.str (CStr.c_str 1 2)⟩], ["a", "b"]) ∧
    (GpiBfmMsg.ctor 1 2
        [⟨GpiBfmParamType_Str, PVal.str (CStr.text "a")⟩,
          ⟨GpiBfmParamType_Str, PVal.str (CStr.text "b")⟩]).map
        (fun m => (m.param_text (m.get_param_at 0), m.param_text (m.get_param_at 1))) =
      some (none, some "b") ∧
    (GpiBfmMsg.ctor 1 1 [⟨GpiBfmParamType_Str, PVal.str (CStr.text "a")⟩]).map
        (fun m => m.param_text (m.get_param_at 0)) = some (some "a") := by
  refine ⟨by rfl, by rfl, by rfl⟩

theorem WF_slot {m : GpiBfmMsg} (hwf : m.WF) (i : Nat) (hi : i < m.m_param_l_idx) :
    ∃ p, m.m_param_l[i]? = some (some p) := by
  obtain ⟨ps, hs⟩ := GpiBfmMsg.Stores_of_WF hwf
  have hlt : i < ps.length := by rw [hs.2.2.2]; exact hi
  exact ⟨ps[i], by rw [hs.slot i hi, List.getElem?_eq_getElem hlt]; rfl⟩

theorem add_param_then_cursor_slot {m : GpiBfmMsg} (hwf : m.WF)
    (hcur : m.m_idx = m.m_param_l_idx) (p : cocotb_bfm_msg_param_t) :
    (m.add_param p).m_idx < (m.add_param p).m_param_l_idx ∧
    (m.add_param p).m_param_l.getD (m.add_param p).m_idx none = some p := by
  obtain ⟨f1, _, _, f4, _⟩ := GpiBfmMsg.add_param_fields m p
  refine ⟨by rw [f1, f4, hcur]; exact Nat.lt_succ_self _, ?_⟩
  rw [f1, hcur, List.getD_eq_getElem?_getD,
    GpiBfmMsg.add_param_slot m p hwf.2.1 hwf.2.2.1 _ (Nat.le_refl _)]
  simp

/-- C7, unchecked typed read: on a message `m` satisfying the representation
invariant with the cursor below the length, `get_param_ui`, `get_param_si`,
`get_param_str` return the payload of the parameter at the cursor read through
the member `ui64`, `i64`, `str`, whatever its tag (the same value results when
the tag at the cursor is replaced by any `t`), and the successor state is `m`
with the cursor advanced by one. For a message `m1` with every stored
parameter consumed, `add_param_si(v)` then `get_param_ui()` returns
`v mod 2^64` for every signed `v`, and `add_param_ui(u)` then
`get_param_si()` returns the two's-complement reading of a 64-bit unsigned
`u`. -/
theorem C7_unchecked_typed_read (m : GpiBfmMsg) (hwf : m.WF) (hlt : m.m_idx < m.m_param_l_idx)
    (t : GpiBfmParamType) (m1 : GpiBfmMsg) (hwf1 : m1.WF) (hcur : m1.m_idx = m1.m_param_l_idx)
    (v : Int) (u : Nat) (hu : u < 2 ^ 64) :
    (∃ p, m.m_param_l[m.m_idx]? = some (some p) ∧
      m.get_param_ui = (p.pval.get_ui64, { m with m_idx := m.m_idx + 1 }, []) ∧
      m.get_param_si = (p.pval.get_i64, { m with m_idx := m.m_idx + 1 }) ∧
      m.get_param_str = (p.pval.get_str, { m with m_idx := m.m_idx + 1 }) ∧
      (m.retag m.m_idx t).m_param_l[m.m_idx]? = some (some { p with ptype := t }) ∧
      (m.retag m.m_idx t).get_param_ui.1 = p.pval.get_ui64 ∧
      (m.retag m.m_idx t).get_param_si.1 = p.pval.get_i64 ∧
      (m.retag m.m_idx t).get_param_str.1 = p.pval.get_str) ∧
    (m1.add_param_si v).get_param_ui.1 = some (v % 2 ^ 64).toNat ∧
    (m1.add_param_ui u).get_param_si.1 = some (if u < 2 ^ 63 then (u : Int) else (u : Int) - 2 ^ 64) := by
  refine ⟨?_, ?_, ?_⟩
  · obtain ⟨p, hp⟩ := WF_slot hwf m.m_idx hlt
    have hlen : m.m_idx < m.m_param_l.length := by
      have := hwf.2.1; have := hwf.2.2.1; omega
    have hd : m.m_param_l.getD m.m_idx none = some p := by
      rw [List.getD_eq_getElem?_getD, hp]; rfl
    have hr : (m.retag m.m_idx t).m_param_l[m.m_idx]? = some (some { p with ptype := t }) := by
      show (m.m_param_l.set m.m_idx ((m.m_param_l.getD m.m_idx none).map
        (fun p => { p with ptype := t })))[m.m_idx]? = _
      rw [hd, List.getElem?_set, if_pos rfl, if_pos hlen]
      rfl
    have hrd : (m.retag m.m_idx t).m_param_l.getD m.m_idx none = some { p with ptype := t } := by
      rw [List.getD_eq_getElem?_getD, hr]; rfl
    have hri : (m.retag m.m_idx t).m_idx = m.m_idx := rfl
    have hrl : (m.retag m.m_idx t).m_param_l_idx = m.m_param_l_idx := rfl
    refine ⟨p, hp, ?_, ?_, ?_, hr, ?_, ?_, ?_⟩
    · simp only [GpiBfmMsg.get_param_ui, hlt, if_true, hd]; rfl
    · simp only [GpiBfmMsg.get_param_si, hlt, if_true, hd]; rfl
    · simp only [GpiBfmMsg.get_param_str, hlt, if_true, hd]; rfl
    · simp only [GpiBfmMsg.get_param_ui, hri, hrl, hlt, if_true, hrd]; rfl
    · simp only [GpiBfmMsg.get_param_si, hri, hrl, hlt, if_true, hrd]; rfl
    · simp only [GpiBfmMsg.get_param_str, hri, hrl, hlt, if_true, hrd]; rfl
  · obtain ⟨h1, h2⟩ := add_param_then_cursor_slot hwf1 hcur ⟨GpiBfmParamType_Si, PVal.i64 v⟩
    simp only [GpiBfmMsg.add_param_si, GpiBfmMsg.get_param_ui, h1, if_true, h2]
    rfl
  · obtain ⟨h1, h2⟩ := add_param_then_cursor_slot hwf1 hcur ⟨GpiBfmParamType_Ui, PVal.ui64 u⟩
    simp only [GpiBfmMsg.add_param_ui, GpiBfmMsg.get_param_si, h1, if_true, h2]
    simp only [Option.bind, PVal.get_i64, Nat.mod_eq_of_lt hu]

theorem typed_read_at_end (m : GpiBfmMsg) (h : m.m_idx = m.m_param_l_idx) (c : Call)
    (hc : c.isTypedRead = true) :
    (c.exec m).2 = m ∧
    ((c = Call.get_param_ui ∧ (c.exec m).1 = Ret.ui (some 0)) ∨
      (c = Call.get_param_si ∧ (c.exec m).1 = Ret.si (some 0)) ∨
      (c = Call.get_param_str ∧ (c.exec m).1 = Ret.str (some (CStr.text "")))) := by
  have hn : ¬ m.m_idx < m.m_param_l_idx := by omega
  cases c with
  | add a => cases hc
  | get_param => cases hc
  | get_param_at idx => cases hc
  | get_param_ui =>
    simp [Call.exec, GpiBfmMsg.get_param_ui, hn]
  | get_param_si =>
    simp [Call.exec, GpiBfmMsg.get_param_si, hn]
  | get_param_str =>
    simp [Call.exec, GpiBfmMsg.get_param_str, hn]

/-- C8, out-of-range typed read: when the cursor equals the length,
`get_param_ui()` returns 0 (and prints the diagnostic), `get_param_si()`
returns 0, `get_param_str()` returns the empty string, each leaving the message
unchanged; hence any sequence of typed reads leaves the message unchanged and
every one of them returns its default. -/
theorem C8_out_of_range_typed_read (m : GpiBfmMsg) (h : m.m_idx = m.m_param_l_idx)
    (cs : List Call) (hcs : ∀ c ∈ cs, c.isTypedRead = true) :
    m.get_param_ui = (some 0, m, ["Error: Out-of-bound request\n"]) ∧
    m.get_param_si = (some 0, m) ∧
    m.get_param_str = (some (CStr.text ""), m) ∧
    (Call.run cs m).2 = m ∧
    (Call.run cs m).1 = cs.map (fun c => (c, (c.exec m).1)) ∧
    (∀ cr ∈ (Call.run cs m).1,
      (cr.1 = Call.get_param_ui ∧ cr.2 = Ret.ui (some 0)) ∨
      (cr.1 = Call.get_param_si ∧ cr.2 = Ret.si (some 0)) ∨
      (cr.1 = Call.get_param_str ∧ cr.2 = Ret.str (some (CStr.text "")))) := by
  have hn : ¬ m.m_idx < m.m_param_l_idx := by omega
  have hrun : (Call.run cs m).2 = m ∧ (Call.run cs m).1 = cs.map (fun c => (c, (c.exec m).1)) := by
    induction cs with
    | nil => exact ⟨rfl, rfl⟩
    | cons c cs ih =>
      have hc := (typed_read_at_end m h c (hcs c (List.mem_cons_self _ _))).1
      obtain ⟨i1, i2⟩ := ih (fun c1 hc1 => hcs c1 (List.mem_cons_of_mem _ hc1))
      simp only [Call.run, hc, List.map_cons]
      exact ⟨i1, by rw [i2]⟩
  refine ⟨by simp [GpiBfmMsg.get_param_ui, hn], by simp [GpiBfmMsg.get_param_si, hn],
    by simp [GpiBfmMsg.get_param_str, hn], hrun.1, hrun.2, ?_⟩
  intro cr hcr
  rw [hrun.2] at hcr
  obtain ⟨c, hc, rfl⟩ := List.mem_map.mp hcr
  exact (typed_read_at_end m h c (hcs c hc)).2

/-- C9, evaluation at the system-task arguments `(1, -1)`: the glue of
`$cocotb_bfm_add_param_si` makes exactly one protocol call, the unsigned
add-parameter operation `cocotb_bfm_add_ui_param` with the sign-extended value
`-1`, not the signed add-parameter operation; it is the operation that the
glue of `$cocotb_bfm_add_param_ui` calls, there with the zero-extended value. -/
theorem C9_signed_add_calls_unsigned_operation :
    (cocotb_bfm_add_param_si_tf 1 (-1)).1 = [BfmApiCall.cocotb_bfm_add_ui_param 1 (-1)] ∧
    (cocotb_bfm_add_param_si_tf 1 (-1)).1 ≠ [spec_add_param_si_call 1 (-1)] ∧
    (cocotb_bfm_add_param_ui_tf 1 (-1)).1 = [BfmApiCall.cocotb_bfm_add_ui_param 1 4294967295] := by
  refine ⟨rfl, by decide, by decide⟩

/-- C10, bounds invariant: let `m` be the state reached from a successfully
constructed message (unsized, or sized with a count `N >= 0`) by any finite
sequence of calls. Then cursor <= length <= capacity, the capacity is the
allocated size, every slot below the length lies inside the array and is
written (so every read of the accessors is in bounds); and for any next call
`c`: an appending call writes its parameter at the old length, inside the
array; the cursor does not decrease; the capacity either stays or grows by
exactly 16, the latter only for an appending call that starts with
length = capacity. -/
theorem C10_bounds_invariant (id : Nat) (paramc : Int) (paramv : List cocotb_bfm_msg_param_t)
    (m0 : GpiBfmMsg) (h : GpiBfmMsg.ctor id paramc paramv = some m0) (cs : List Call)
    (m : GpiBfmMsg) (hm : (Call.run cs m0).2 = m) (c : Call) :
    (m.m_idx ≤ m.m_param_l_idx ∧ m.m_param_l_idx ≤ m.m_param_l_max ∧
      m.m_param_l.length = m.m_param_l_max) ∧
    (∀ i, i < m.m_param_l_idx → i < m.m_param_l.length ∧ ∃ p, m.m_param_l[i]? = some (some p)) ∧
    (∀ a, c = Call.add a →
      m.m_param_l_idx < (c.exec m).2.m_param_l.length ∧
      (c.exec m).2.m_param_l[m.m_param_l_idx]? = some (some (a.stored m))) ∧
    m.m_idx ≤ (c.exec m).2.m_idx ∧
    ((c.exec m).2.m_param_l_max = m.m_param_l_max ∨
      ((c.exec m).2.m_param_l_max = m.m_param_l_max + 16 ∧ (∃ a, c = Call.add a) ∧
        m.m_param_l_idx = m.m_param_l_max)) := by
  obtain ⟨ps0, hs0, hi0⟩ := GpiBfmMsg.ctor_stores id paramc paramv m0 h
  obtain ⟨ps, hs, hi⟩ := GpiBfmMsg.run_preserves cs m0 ps0 hs0 (by rw [hi0]; exact Nat.zero_le _)
  rw [hm] at hs hi
  have hwf := GpiBfmMsg.WF_of_Stores hs hi
  refine ⟨⟨hi, hs.1, hs.2.1⟩, ?_, ?_, GpiBfmMsg.exec_cursor_mono c m,
    GpiBfmMsg.exec_capacity c m hs.1⟩
  · intro i hlt
    refine ⟨?_, WF_slot hwf i hlt⟩
    have := hs.1; have := hs.2.1; omega
  · intro a ha
    subst ha
    obtain ⟨e1, _⟩ := hs.exec a
    have f := GpiBfmMsg.AddCall_exec_fields a m
    have hsl := e1.slot m.m_param_l_idx (by rw [f.2.2.1]; exact Nat.lt_succ_self _)
    have hv : (ps ++ [a.stored m])[m.m_param_l_idx]? = some (a.stored m) := by
      rw [← hs.2.2.2]; simp
    rw [hv] at hsl
    refine ⟨?_, hsl⟩
    have hl := e1.2.1
    have hle := e1.1
    rw [f.2.2.1] at hle
    show m.m_param_l_idx < (a.exec m).m_param_l.length
    omega

/-- Instance of C7: the unread parameter of `ex_one` (stored by
`add_param_si(-1)`) read through each typed accessor, and the two integer
round trips on `ex_fresh` with `v = -1` and `u = 2^64 - 1`. -/
theorem C7_unchecked_typed_read_witness :
    ex_one.WF ∧ ex_one.m_idx < ex_one.m_param_l_idx ∧ ex_fresh.WF ∧
    ex_fresh.m_idx = ex_fresh.m_param_l_idx ∧ 18446744073709551615 < 2 ^ 64 ∧
    ((∃ p, ex_one.m_param_l[ex_one.m_idx]? = some (some p) ∧
      ex_one.get_param_ui = (p.pval.get_ui64, { ex_one with m_idx := ex_one.m_idx + 1 }, []) ∧
      ex_one.get_param_si = (p.pval.get_i64, { ex_one with m_idx := ex_one.m_idx + 1 }) ∧
      ex_one.get_param_str = (p.pval.get_str, { ex_one with m_idx := ex_one.m_idx + 1 }) ∧
      (ex_one.retag ex_one.m_idx GpiBfmParamType_Str).m_param_l[ex_one.m_idx]? =
        some (some { p with ptype := GpiBfmParamType_Str }) ∧
      (ex_one.retag ex_one.m_idx GpiBfmParamType_Str).get_param_ui.1 = p.pval.get_ui64 ∧
      (ex_one.retag ex_one.m_idx GpiBfmParamType_Str).get_param_si.1 = p.pval.get_i64 ∧
      (ex_one.retag ex_one.m_idx GpiBfmParamType_Str).get_param_str.1 = p.pval.get_str) ∧
    (ex_fresh.add_param_si (-1)).get_param_ui.1 = some ((-1 : Int) % 2 ^ 64).toNat ∧
    (ex_fresh.add_param_ui 18446744073709551615).get_param_si.1 =
      some (if 18446744073709551615 < 2 ^ 63 then ((18446744073709551615 : Nat) : Int)
        else ((18446744073709551615 : Nat) : Int) - 2 ^ 64)) :=
  ⟨by decide, by decide, by decide, rfl, by norm_num,
    C7_unchecked_typed_read ex_one (by decide) (by decide) GpiBfmParamType_Str ex_fresh
      (by decide) rfl (-1) 18446744073709551615 (by norm_num)⟩

/-- Instance of C8: three typed reads on the empty message `ex_fresh`. -/
theorem C8_out_of_range_typed_read_witness :
    ex_fresh.m_idx = ex_fresh.m_param_l_idx ∧
    (∀ c ∈ [Call.get_param_ui, Call.get_param_si, Call.get_param_str], c.isTypedRead = true) ∧
    ex_fresh.get_param_ui = (some 0, ex_fresh, ["Error: Out-of-bound request\n"]) ∧
    ex_fresh.get_param_si = (some 0, ex_fresh) ∧
    ex_fresh.get_param_str = (some (CStr.text ""), ex_fresh) ∧
    (Call.run [Call.get_param_ui, Call.get_param_si, Call.get_param_str] ex_fresh).2 = ex_fresh := by
  have h := C8_out_of_range_typed_read ex_fresh rfl
    [Call.get_param_ui, Call.get_param_si, Call.get_param_str] (by decide)
  exact ⟨rfl, by decide, h.1, h.2.1, h.2.2.1, h.2.2.2.1⟩

/-- Instance of C10: a sized message with `N = 0`, after one `add_param_ui(5)`
and one `get_param()`, with `add_param_s("x")` as the next call. -/
theorem C10_bounds_invariant_witness :
    GpiBfmMsg.ctor 3 0 [] = some ⟨3, [], 0, 0, [], 0⟩ ∧
    ((Call.run [Call.add (AddCall.add_param_ui 5), Call.get_param] ⟨3, [], 0, 0, [], 0⟩).2.m_idx ≤
      (Call.run [Call.add (AddCall.add_param_ui 5), Call.get_param]
        ⟨3, [], 0, 0, [], 0⟩).2.m_param_l_idx ∧
    (Call.run [Call.add (AddCall.add_param_ui 5), Call.get_param]
        ⟨3, [], 0, 0, [], 0⟩).2.m_param_l_idx ≤
      (Call.run [Call.add (AddCall.add_param_ui 5), Call.get_param]
        ⟨3, [], 0, 0, [], 0⟩).2.m_param_l_max ∧
    (Call.run [Call.add (AddCall.add_param_ui 5), Call.get_param]
        ⟨3, [], 0, 0, [], 0⟩).2.m_param_l.length =
      (Call.run [Call.add (AddCall.add_param_ui 5), Call.get_param]
        ⟨3, [], 0, 0, [], 0⟩).2.m_param_l_max) ∧
    (Call.run [Call.add (AddCall.add_param_ui 5), Call.get_param]
        ⟨3, [], 0, 0, [], 0⟩).2.m_param_l_max = 16 :=
  ⟨rfl,
    (C10_bounds_invariant 3 0 [] ⟨3, [], 0, 0, [], 0⟩ rfl
      [Call.add (AddCall.add_param_ui 5), Call.get_param] _ rfl
      (Call.add (AddCall.add_param_s "x"))).1,
    by decide⟩
